import Mathlib

/-!
# Verification of the robust Excel parser (`robust_excel_parser.py`)

This file gives a shallow embedding in Lean 4 of the spreadsheet-normalization
pipeline of `RobustExcelParser` and proves / refutes the frozen claims about it.

Modelling conventions:
* A spreadsheet cell is `Cell`: `na` is the missing marker (`NaN` / `None`),
  `int`, `num`, `str` and `bool` mirror the Python value types that can appear
  in a `pandas` grid read with `header=None`.  Python floats are embedded as
  exact rationals (`ℚ`); the pipeline only ever produces finite values, and the
  specification's data-model invariant requires every non-label value to be a
  finite numeric or the missing marker, so non-finite parses (`inf`, `nan`
  strings) are mapped to the missing marker.
* Python strings are processed as `List Char` (`String.data`) so that every
  operation is kernel-computable; `str.strip()` / `.lower()` become
  `trimChars` / `lowerChars` over the ASCII whitespace set.
* `pandas`/Python operations are embedded as total functions; the operations
  that can raise in Python (positional row access `df.iloc[i]`, opening the
  workbook) return `Except PErr _`.
* A grid is `List (List Cell)`, row-major, as read verbatim from a sheet.
  `pandas` grids are rectangular; theorems that depend on rectangularity take
  it as a hypothesis.
* Python `str(x)` is `pyStrChars`; the rendering of a non-integral float is
  approximate (like Python's it contains no letters, which is all the
  pipeline ever inspects on stringified numerics).
-/

/-- A spreadsheet cell value as held in the raw grid. -/
inductive Cell : Type
  | na : Cell
  | int : ℤ → Cell
  | num : ℚ → Cell
  | str : String → Cell
  | bool : Bool → Cell
  deriving DecidableEq, Repr

/-- Errors the embedded pipeline can surface: an I/O-category failure from
opening/reading the workbook, or a Python `IndexError` from positional row
access (`df.iloc[i]`). -/
inductive PErr : Type
  | ioError : PErr
  | indexError : PErr
  deriving DecidableEq, Repr

instance {ε α : Type} [DecidableEq ε] [DecidableEq α] : DecidableEq (Except ε α) := fun a b =>
  match a, b with
  | Except.ok x, Except.ok y =>
      if h : x = y then Decidable.isTrue (by rw [h])
      else Decidable.isFalse (by intro hh; injection hh; contradiction)
  | Except.error x, Except.error y =>
      if h : x = y then Decidable.isTrue (by rw [h])
      else Decidable.isFalse (by intro hh; injection hh; contradiction)
  | Except.ok _, Except.error _ => Decidable.isFalse (by intro hh; injection hh)
  | Except.error _, Except.ok _ => Decidable.isFalse (by intro hh; injection hh)

/-! ## Python string primitives -/

/-- The whitespace characters stripped by Python `str.strip()` (ASCII set). -/
def wsChar (c : Char) : Bool :=
  c == ' ' || c == '\t' || c == '\n' || c == '\r' || c == '\x0b' || c == '\x0c'

/-- Python `str.strip()`. -/
def trimChars (cs : List Char) : List Char :=
  ((cs.dropWhile wsChar).reverse.dropWhile wsChar).reverse

/-- Python `str.lower()` (ASCII case folding). -/
def lowerChars (cs : List Char) : List Char :=
  cs.map Char.toLower

/-- Python `str(value)` on a cell.  `str(nan) = "nan"`, integers and booleans
render as in Python; the rendering of a non-integral float is approximate but,
like Python's, contains no letters. -/
def pyStrChars : Cell → List Char
  | Cell.na => "nan".data
  | Cell.int n => (toString n).data
  | Cell.num q =>
      if q.den = 1 then (toString q.num).data ++ ".0".data
      else (toString q.num).data ++ ".".data ++ (toString q.den).data
  | Cell.str s => s.data
  | Cell.bool b => if b then "True".data else "False".data

/-- Python substring test `needle in hay`. -/
def strInL (needle hay : List Char) : Bool :=
  hay.tails.any (fun t => needle.isPrefixOf t)

/-- Python `str(x).lower().strip()`, the normalization used throughout the parser. -/
def pyNormChars (cs : List Char) : List Char := trimChars (lowerChars cs)

/-! ## Value Cleaner (`clean_numeric_value`, source lines 218–245) -/

/-- The characters removed by `re.sub(r'[£$€,\s]', '', val_str)`:
currency symbols, thousands separators and whitespace. -/
def isStrippedChar (c : Char) : Bool :=
  c == '£' || c == '$' || c == '€' || c == ',' || wsChar c

/-- Remove currency symbols, commas and whitespace. -/
def stripChars (cs : List Char) : List Char :=
  cs.filter (fun c => !isStrippedChar c)

/-- The parenthesized-negative step: `if '(' in val_str and ')' in val_str: val_str = '-' + val_str.replace('(','').replace(')','')`. -/
def negParens (cs : List Char) : List Char :=
  if cs.contains '(' && cs.contains ')' then
    '-' :: cs.filter (fun c => !(c == '(' || c == ')'))
  else cs

/-- Numeric value of a digit character. -/
def digVal (c : Char) : ℕ := c.toNat - 48

/-- Value of a digit string. -/
def digitsVal (ds : List Char) : ℕ := ds.foldl (fun a c => a * 10 + digVal c) 0

/-- Python `float(s)` on the already-stripped string, embedded into `ℚ`:
optional sign, decimal digits with optional fraction, optional exponent.
The value `±(ip.fp) × 10^ex` is assembled with integer arithmetic and `mkRat`
so that it is kernel-computable.  Non-finite parses (`"inf"`, `"nan"`) are
mapped to the missing marker, in line with the data-model invariant that every
value is finite numeric or missing. -/
def parseFloatChars (cs : List Char) : Option ℚ :=
  let (sgn, cs1) :=
    match cs with
    | '-' :: t => ((-1 : ℤ), t)
    | '+' :: t => ((1 : ℤ), t)
    | _ => ((1 : ℤ), cs)
  let ip := cs1.takeWhile Char.isDigit
  let cs2 := cs1.dropWhile Char.isDigit
  let (fp, cs3) :=
    match cs2 with
    | '.' :: t => (t.takeWhile Char.isDigit, t.dropWhile Char.isDigit)
    | _ => (([] : List Char), cs2)
  if ip.isEmpty && fp.isEmpty then none
  else
    let mant : ℤ := (digitsVal ip * 10 ^ fp.length + digitsVal fp : ℕ)
    match cs3 with
    | [] => some (mkRat (sgn * mant) (10 ^ fp.length))
    | e :: t =>
      if e == 'e' || e == 'E' then
        let (esgn, t1) :=
          match t with
          | '-' :: u => ((-1 : ℤ), u)
          | '+' :: u => ((1 : ℤ), u)
          | _ => ((1 : ℤ), t)
        let ed := t1.takeWhile Char.isDigit
        let rest := t1.dropWhile Char.isDigit
        if ed.isEmpty || !rest.isEmpty then none
        else
          let ex : ℤ := esgn * (digitsVal ed : ℤ)
          some (if 0 ≤ ex then mkRat (sgn * mant * 10 ^ ex.toNat) (10 ^ fp.length)
                else mkRat (sgn * mant) (10 ^ (fp.length + (-ex).toNat)))
      else none

/-- The Value Cleaner `clean_numeric_value` (source lines 218–245): absent value yields missing;
otherwise stringify, strip whitespace/currency/commas, interpret parentheses
as negation, and parse as a float, yielding missing on parse failure. -/
def clean_numeric_value (v : Cell) : Option ℚ :=
  if v = Cell.na then none
  else
    parseFloatChars (negParens (stripChars (trimChars (pyStrChars v))))

/-- C1: For every input cell value, the Value Cleaner returns a numeric result
or the missing marker and never raises: an absent/empty value yields missing;
a string is whitespace-trimmed, stripped of currency symbols (£, $, €),
thousands separators and embedded spaces, a parenthesized string is negated,
and the result is parsed as a float, yielding missing on parse failure.
In particular `"£1,234.56"` yields `1234.56`, `"(500)"` yields `-500`,
`"$1,000"` yields `1000`, and `"n/a"`, `""` and an absent value yield missing. -/
theorem claim_C1_value_cleaner :
    clean_numeric_value Cell.na = none ∧
    clean_numeric_value (Cell.str "") = none ∧
    clean_numeric_value (Cell.str "n/a") = none ∧
    clean_numeric_value (Cell.str "£1,234.56") = some (mkRat 123456 100) ∧
    clean_numeric_value (Cell.str "(500)") = some (-500 : ℚ) ∧
    clean_numeric_value (Cell.str "$1,000") = some (1000 : ℚ) ∧
    clean_numeric_value (Cell.str " £ 2 , 5 0 0 ") = some (2500 : ℚ) ∧
    (∀ v : Cell, clean_numeric_value v = none ∨ ∃ q : ℚ, clean_numeric_value v = some q) := by
  refine ⟨by decide, by decide, by decide, by decide, by decide, by decide, by decide, ?_⟩
  intro v
  cases h : clean_numeric_value v with
  | none => exact Or.inl rfl
  | some q => exact Or.inr ⟨q, rfl⟩

/-! ## Section Cleaner: total-row removal (`remove_total_rows`, lines 247–273) -/

/-- The list `total_keywords = ['total', 'sum', 'grand total', 'subtotal', 'overall']`. -/
def total_keywords : List (List Char) :=
  ["total".data, "sum".data, "grand total".data, "subtotal".data, "overall".data]

/-- Whether a row's first (label) column, stringified, lowercased and trimmed,
contains one of the total keywords. -/
def isTotalLabel (r : List Cell) : Bool :=
  let x := pyNormChars (pyStrChars (r.headD Cell.na))
  total_keywords.any (fun kw => strInL kw x)

/-- The filter `remove_total_rows` (lines 247–273), on a table of width `w`: if the table
has at least one column, drop every row whose label contains a total keyword. -/
def remove_total_rows (w : ℕ) (rows : List (List Cell)) : List (List Cell) :=
  if 0 < w then rows.filter (fun r => !isTotalLabel r) else rows

/-- C5: For every table, total-row removal drops exactly those rows whose first
(label) column's lowercased, whitespace-trimmed text contains one of "total",
"sum", "grand total", "subtotal", "overall", regardless of the row's numeric
content (so a row labeled "Grand Total" is always dropped), and the surviving
rows keep their relative order. -/
theorem claim_C5_total_rows (w : ℕ) (rows : List (List Cell)) (hw : 0 < w) :
    (∀ r, r ∈ remove_total_rows w rows ↔ (r ∈ rows ∧ isTotalLabel r = false)) ∧
    (remove_total_rows w rows).Sublist rows ∧
    (∀ r, r ∈ rows → isTotalLabel r = true → r ∉ remove_total_rows w rows) ∧
    (∀ r, isTotalLabel r = true ↔
      ∃ kw ∈ total_keywords, strInL kw (pyNormChars (pyStrChars (r.headD Cell.na))) = true) := by
  have hdef : remove_total_rows w rows = rows.filter (fun r => !isTotalLabel r) := by
    simp [remove_total_rows, hw]
  refine ⟨?_, ?_, ?_, ?_⟩
  · intro r
    rw [hdef, List.mem_filter]
    simp
  · rw [hdef]; exact List.filter_sublist rows
  · intro r hr ht hmem
    rw [hdef, List.mem_filter] at hmem
    rw [ht] at hmem
    simp at hmem
  · intro r
    simp [isTotalLabel, List.any_eq_true]

/-- Witness for C5: a "Grand Total" row with numeric content is dropped. -/
theorem claim_C5_witness :
    0 < 2 ∧
    [Cell.str "Grand Total", Cell.int 100] ∉
      remove_total_rows 2 [[Cell.str "Grand Total", Cell.int 100], [Cell.str "Jan", Cell.int 5]] :=
  ⟨by decide,
   (claim_C5_total_rows 2 [[Cell.str "Grand Total", Cell.int 100], [Cell.str "Jan", Cell.int 5]]
      (by decide)).2.2.1 _ (by decide) (by decide)⟩

/-! ## Section Cleaner: comment-row removal (`remove_comment_rows`, lines 307–340) -/

/-- Python `isinstance(val, (int, float, np.number))`: `NaN` is itself a float,
so the missing marker counts as numeric-typed; booleans subclass `int`;
strings (including numeric-looking text) do not count. -/
def isNumericType : Cell → Bool
  | Cell.na => true
  | Cell.int _ => true
  | Cell.num _ => true
  | Cell.bool _ => true
  | Cell.str _ => false

/-- Number of numeric-typed cells in a row, excluding the first (label) column. -/
def numericCount (r : List Cell) : ℕ := (r.drop 1).countP (fun c => isNumericType c)

/-- The filter `remove_comment_rows` (lines 307–340) on a table of width `w`: skipped when
there is at most one column; otherwise a row is dropped when its numeric-typed
count over the non-label columns is below `(w - 1) * 0.5`. -/
def remove_comment_rows (w : ℕ) (rows : List (List Cell)) : List (List Cell) :=
  if w ≤ 1 then rows
  else rows.filter (fun r => !(decide ((numericCount r : ℚ) < mkRat ((w : ℤ) - 1) 2)))

/-- C10: the missing marker counts as numeric-typed (it is itself a
floating-point value), so a row whose non-label cells are all missing is never
dropped as a comment row, and a row is dropped exactly when fewer than 50% of
its non-label cells are of numeric type (numeric-looking text counting as
non-numeric). -/
theorem claim_C10_comment_rows (w : ℕ) (rows : List (List Cell)) (hw : 2 ≤ w) :
    (∀ r, r ∈ remove_comment_rows w rows ↔
      (r ∈ rows ∧ ¬((numericCount r : ℚ) < mkRat ((w : ℤ) - 1) 2))) ∧
    (remove_comment_rows w rows).Sublist rows ∧
    (∀ s : String, isNumericType (Cell.str s) = false) ∧
    isNumericType Cell.na = true ∧
    (∀ r, r ∈ rows → r.length = w → (∀ c ∈ r.drop 1, c = Cell.na) →
      r ∈ remove_comment_rows w rows) := by
  have hnot : ¬ (w ≤ 1) := by omega
  have hdef : remove_comment_rows w rows =
      rows.filter (fun r => !(decide ((numericCount r : ℚ) < mkRat ((w : ℤ) - 1) 2))) := by
    simp [remove_comment_rows, hnot]
  have hmem : ∀ r, r ∈ remove_comment_rows w rows ↔
      (r ∈ rows ∧ ¬((numericCount r : ℚ) < mkRat ((w : ℤ) - 1) 2)) := by
    intro r
    rw [hdef, List.mem_filter]
    simp
  refine ⟨hmem, ?_, fun s => rfl, rfl, ?_⟩
  · rw [hdef]; exact List.filter_sublist rows
  · intro r hr hlen hna
    rw [hmem]
    refine ⟨hr, ?_⟩
    have hcount : numericCount r = w - 1 := by
      unfold numericCount
      have : ∀ c ∈ r.drop 1, isNumericType c = true := by
        intro c hc
        rw [hna c hc]; rfl
      calc (r.drop 1).countP (fun c => isNumericType c)
          = (r.drop 1).length := List.countP_eq_length.mpr this
        _ = w - 1 := by rw [List.length_drop, hlen]
    rw [hcount]
    have h1 : (1 : ℕ) ≤ w - 1 := by omega
    have hcast : ((w - 1 : ℕ) : ℚ) = ((w : ℤ) - 1 : ℤ) := by
      push_cast [Nat.cast_sub (by omega : 1 ≤ w)]
      ring
    rw [hcast, Rat.mkRat_eq_div]
    intro hlt
    have hge : (1 : ℚ) ≤ ((w : ℤ) - 1 : ℤ) := by
      have := h1
      push_cast [hcast.symm]
      exact_mod_cast by exact_mod_cast Nat.one_le_cast.mpr h1
    nlinarith [hlt, hge]

/-- Witness for C10: a row whose non-label cells are all missing survives. -/
theorem claim_C10_witness :
    2 ≤ 3 ∧
    [Cell.str "note", Cell.na, Cell.na] ∈
      remove_comment_rows 3 [[Cell.str "note", Cell.na, Cell.na]] :=
  ⟨by decide,
   (claim_C10_comment_rows 3 [[Cell.str "note", Cell.na, Cell.na]] (by decide)).2.2.2.2
     _ (by decide) (by decide) (by decide)⟩

/-! ## Config boundary override (lines 370–377 and 436–443) -/

/-- The override of auto-detected boundaries used identically by the revenue
and costs section parsers: applied when both `<section>_start_row` and
`<section>_end_row` are supplied and `config_end - config_start >= 2`. -/
def applyConfigOverride (auto : ℤ × ℤ) (cs ce : Option ℤ) : ℤ × ℤ :=
  match cs, ce with
  | some s, some e => if 2 ≤ e - s then (s, e) else auto
  | _, _ => auto

/-- C7 counterexample: a configured range from row 5 to row 6 spans exactly
2 rows (rows 5 and 6), so by the claim it should replace the auto-detected
boundaries; the code keeps the auto-detected boundaries because it requires
`end - start >= 2`, i.e. at least 3 rows. -/
theorem claim_C7_counterexample :
    (6 : ℤ) - 5 + 1 = 2 ∧
    applyConfigOverride (1, 9) (some 5) (some 6) = (1, 9) ∧
    ((1, 9) : ℤ × ℤ) ≠ (5, 6) := by decide

/-- C7 (amended): configuration-supplied start/end rows replace the
auto-detected boundaries exactly when both are supplied and
`end - start ≥ 2`, i.e. the supplied range contains at least 3 rows; when
either is absent or `end - start < 2`, the auto-detected boundaries are
kept. -/
theorem claim_C7_amended (auto : ℤ × ℤ) (cs ce : Option ℤ) :
    (∀ s e, cs = some s → ce = some e →
      ((2 ≤ e - s → applyConfigOverride auto cs ce = (s, e)) ∧
       (e - s < 2 → applyConfigOverride auto cs ce = auto))) ∧
    (cs = none → applyConfigOverride auto cs ce = auto) ∧
    (ce = none → applyConfigOverride auto cs ce = auto) := by
  refine ⟨?_, ?_, ?_⟩
  · intro s e hs he
    subst hs; subst he
    constructor
    · intro h2; simp [applyConfigOverride, h2]
    · intro h2; simp [applyConfigOverride, show ¬ (2 ≤ e - s) by omega]
  · intro hs; subst hs; simp [applyConfigOverride]
  · intro he; subst he; cases cs <;> simp [applyConfigOverride]

/-- Witness for C7 (amended): a 3-row configured range is applied. -/
theorem claim_C7_witness :
    applyConfigOverride (1, 9) (some 5) (some 7) = (5, 7) :=
  ((claim_C7_amended (1, 9) (some 5) (some 7)).1 5 7 rfl rfl).1 (by decide)

/-! ## Merged-cell repair (`detect_merged_cells`, lines 110–141)

pandas `fillna(method='ffill', axis=1)` then `axis=0` on the extracted
section: fill each missing cell from the nearest earlier value in its row,
then fill cells still missing from the nearest value above in their column. -/

/-- Forward fill along one row, carrying the last non-missing value. -/
def ffillGo (last : Cell) : List Cell → List Cell
  | [] => []
  | c :: cs =>
      (if c = Cell.na then last else c) :: ffillGo (if c = Cell.na then last else c) cs

/-- pandas `fillna(method='ffill', axis=1)` on one row. -/
def ffillRow (r : List Cell) : List Cell := ffillGo Cell.na r

/-- One step of `fillna(method='ffill', axis=0)`: a missing cell takes the
value of the (already filled) previous row at the same position. -/
def combineRows : List Cell → List Cell → List Cell
  | _, [] => []
  | [], c :: cs => c :: cs
  | p :: ps, c :: cs => (if c = Cell.na then p else c) :: combineRows ps cs

/-- pandas `fillna(method='ffill', axis=0)`: fill down the columns. -/
def colFillGo (prev : List Cell) : List (List Cell) → List (List Cell)
  | [] => []
  | r :: rs => combineRows prev r :: colFillGo (combineRows prev r) rs

/-- The merged-cell repair of `detect_merged_cells`: row fill then column fill. -/
def repairGrid (g : List (List Cell)) : List (List Cell) :=
  colFillGo [] (g.map ffillRow)

/-- Cell lookup in a grid. -/
def cellAt (g : List (List Cell)) (i j : ℕ) : Option Cell :=
  (g.get? i).bind fun r => r.get? j

theorem ffillGo_cons (last c : Cell) (cs : List Cell) :
    ffillGo last (c :: cs) =
      (if c = Cell.na then last else c) :: ffillGo (if c = Cell.na then last else c) cs := rfl

theorem ffillGo_idem (l : List Cell) : ∀ last, ffillGo last (ffillGo last l) = ffillGo last l := by
  induction l with
  | nil => intro last; rfl
  | cons c cs ih =>
    intro last
    by_cases hc : c = Cell.na
    · subst hc
      rw [ffillGo_cons, if_pos rfl, ffillGo_cons, ite_self]
      rw [ih last]
    · rw [ffillGo_cons, if_neg hc, ffillGo_cons, if_neg hc]
      rw [ih c]

theorem combineRows_nil_left (r : List Cell) : combineRows [] r = r := by
  cases r <;> rfl

theorem combineRows_nil_right (p : List Cell) : combineRows p [] = [] := by
  cases p <;> rfl

theorem combineRows_cons (q c : Cell) (ps cs : List Cell) :
    combineRows (q :: ps) (c :: cs) =
      (if c = Cell.na then q else c) :: combineRows ps cs := rfl

theorem combineRows_idem (r : List Cell) : ∀ p, combineRows p (combineRows p r) = combineRows p r := by
  induction r with
  | nil => intro p; rw [combineRows_nil_right, combineRows_nil_right]
  | cons c cs ih =>
    intro p
    cases p with
    | nil => rw [combineRows_nil_left, combineRows_nil_left]
    | cons q ps =>
      by_cases hc : c = Cell.na
      · rw [combineRows_cons, if_pos hc, combineRows_cons, ite_self]
        rw [ih ps]
      · rw [combineRows_cons, if_neg hc, combineRows_cons, if_neg hc]
        rw [ih ps]

theorem colFillGo_idem (h : List (List Cell)) :
    ∀ prev, colFillGo prev (colFillGo prev h) = colFillGo prev h := by
  induction h with
  | nil => intro prev; rfl
  | cons r rs ih =>
    intro prev
    simp only [colFillGo, combineRows_idem]
    rw [ih (combineRows prev r)]

/-- A row is a fixpoint of the row fill exactly when, after the first
non-missing cell, no missing cell occurs. -/
def FilledP : List Cell → Prop
  | [] => True
  | c :: cs => if c = Cell.na then FilledP cs else ∀ x ∈ cs, x ≠ Cell.na

theorem ffillGo_of_noNA (l : List Cell) :
    ∀ last, (∀ x ∈ l, x ≠ Cell.na) → ffillGo last l = l := by
  induction l with
  | nil => intro last _; rfl
  | cons c cs ih =>
    intro last h
    have hc : c ≠ Cell.na := h c (List.mem_cons_self c cs)
    simp only [ffillGo, if_neg hc]
    rw [ih c (fun x hx => h x (List.mem_cons_of_mem c hx))]

theorem ffillGo_noNA (l : List Cell) :
    ∀ last, last ≠ Cell.na → ∀ x ∈ ffillGo last l, x ≠ Cell.na := by
  induction l with
  | nil => intro last _ x hx; simp [ffillGo] at hx
  | cons c cs ih =>
    intro last hlast x hx
    by_cases hc : c = Cell.na
    · simp only [ffillGo, if_pos hc] at hx
      rcases List.mem_cons.mp hx with h1 | h2
      · rw [h1]; exact hlast
      · exact ih last hlast x h2
    · simp only [ffillGo, if_neg hc] at hx
      rcases List.mem_cons.mp hx with h1 | h2
      · rw [h1]; exact hc
      · exact ih c hc x h2

theorem ffillRow_of_FilledP (l : List Cell) (h : FilledP l) : ffillRow l = l := by
  induction l with
  | nil => rfl
  | cons c cs ih =>
    by_cases hc : c = Cell.na
    · subst hc
      have hcs : FilledP cs := by simpa [FilledP] using h
      unfold ffillRow at ih ⊢
      rw [ffillGo_cons, if_pos rfl]
      rw [ih hcs]
    · have hcs : ∀ x ∈ cs, x ≠ Cell.na := by
        simpa [FilledP, hc] using h
      unfold ffillRow
      rw [ffillGo_cons, if_neg hc]
      rw [ffillGo_of_noNA cs c hcs]

theorem FilledP_ffillRow (l : List Cell) : FilledP (ffillRow l) := by
  induction l with
  | nil => trivial
  | cons c cs ih =>
    by_cases hc : c = Cell.na
    · unfold ffillRow
      rw [ffillGo_cons, if_pos hc]
      subst hc
      simpa [FilledP] using ih
    · unfold ffillRow
      rw [ffillGo_cons, if_neg hc]
      simp only [FilledP, if_neg hc]
      exact ffillGo_noNA cs c hc

theorem combineRows_of_noNA (r : List Cell) :
    ∀ p, (∀ x ∈ r, x ≠ Cell.na) → combineRows p r = r := by
  induction r with
  | nil => intro p _; exact combineRows_nil_right p
  | cons c cs ih =>
    intro p h
    have hc : c ≠ Cell.na := h c (List.mem_cons_self c cs)
    cases p with
    | nil => exact combineRows_nil_left _
    | cons q ps =>
      rw [combineRows_cons, if_neg hc]
      rw [ih ps (fun x hx => h x (List.mem_cons_of_mem c hx))]

theorem combineRows_noNA_left (r : List Cell) :
    ∀ p, (∀ x ∈ p, x ≠ Cell.na) → p.length = r.length →
      ∀ x ∈ combineRows p r, x ≠ Cell.na := by
  induction r with
  | nil => intro p _ _ x hx; rw [combineRows_nil_right] at hx; simp at hx
  | cons c cs ih =>
    intro p hp hlen x hx
    cases p with
    | nil => simp at hlen
    | cons q ps =>
      have hq : q ≠ Cell.na := hp q (List.mem_cons_self q ps)
      rw [combineRows_cons] at hx
      rcases List.mem_cons.mp hx with h1 | h2
      · by_cases hc : c = Cell.na
        · rw [h1, if_pos hc]; exact hq
        · rw [h1, if_neg hc]; exact hc
      · exact ih ps (fun y hy => hp y (List.mem_cons_of_mem q hy))
          (by simpa using hlen) x h2

theorem combineRows_length (r : List Cell) : ∀ p, (combineRows p r).length = r.length := by
  induction r with
  | nil => intro p; rw [combineRows_nil_right]
  | cons c cs ih =>
    intro p
    cases p with
    | nil => rw [combineRows_nil_left]
    | cons q ps => rw [combineRows_cons]; simp [ih ps]

theorem FilledP_combineRows (r : List Cell) :
    ∀ p, FilledP p → FilledP r → p.length = r.length → FilledP (combineRows p r) := by
  induction r with
  | nil => intro p _ _ _; rw [combineRows_nil_right]; trivial
  | cons c cs ih =>
    intro p hp hr hlen
    cases p with
    | nil => simp at hlen
    | cons q ps =>
      have hlen' : ps.length = cs.length := by simpa using hlen
      by_cases hc : c = Cell.na
      · have hcs : FilledP cs := by simpa [FilledP, hc] using hr
        by_cases hq : q = Cell.na
        · have hps : FilledP ps := by simpa [FilledP, hq] using hp
          rw [combineRows_cons, if_pos hc]
          subst hq
          simp only [FilledP, if_pos rfl]
          exact ih ps hps hcs hlen'
        · have hps : ∀ x ∈ ps, x ≠ Cell.na := by simpa [FilledP, hq] using hp
          rw [combineRows_cons, if_pos hc]
          simp only [FilledP, if_neg hq]
          exact combineRows_noNA_left cs ps hps hlen'
      · have hcs : ∀ x ∈ cs, x ≠ Cell.na := by simpa [FilledP, hc] using hr
        rw [combineRows_cons, if_neg hc]
        simp only [FilledP, if_neg hc]
        rw [combineRows_of_noNA cs ps hcs]
        exact hcs

theorem colFillGo_FilledP (h : List (List Cell)) (w : ℕ) :
    ∀ prev, (∀ r ∈ h, FilledP r ∧ r.length = w) →
      (prev = [] ∨ (FilledP prev ∧ prev.length = w)) →
      ∀ r' ∈ colFillGo prev h, FilledP r' := by
  induction h with
  | nil => intro prev _ _ r' hr'; simp [colFillGo] at hr'
  | cons r rs ih =>
    intro prev hall hprev r' hr'
    have hrF : FilledP r ∧ r.length = w := hall r (List.mem_cons_self r rs)
    have hcomb : FilledP (combineRows prev r) ∧ (combineRows prev r).length = w := by
      rcases hprev with h0 | ⟨hpF, hpl⟩
      · subst h0
        rw [combineRows_nil_left]
        exact hrF
      · refine ⟨FilledP_combineRows r prev hpF hrF.1 (by rw [hpl, hrF.2]), ?_⟩
        rw [combineRows_length, hrF.2]
    simp only [colFillGo] at hr'
    rcases List.mem_cons.mp hr' with h1 | h2
    · rw [h1]; exact hcomb.1
    · exact ih (combineRows prev r)
        (fun x hx => hall x (List.mem_cons_of_mem r hx))
        (Or.inr hcomb) r' h2

theorem map_ffillRow_of_FilledP (h : List (List Cell)) (hf : ∀ r ∈ h, FilledP r) :
    h.map ffillRow = h := by
  induction h with
  | nil => rfl
  | cons r rs ih =>
    simp only [List.map_cons]
    rw [ffillRow_of_FilledP r (hf r (List.mem_cons_self r rs)),
        ih (fun x hx => hf x (List.mem_cons_of_mem r hx))]

theorem ffillGo_length (l : List Cell) : ∀ last, (ffillGo last l).length = l.length := by
  induction l with
  | nil => intro last; rfl
  | cons c cs ih => intro last; simp [ffillGo, ih]

theorem ffillGo_get?_preserved (l : List Cell) :
    ∀ last j c, l.get? j = some c → c ≠ Cell.na → (ffillGo last l).get? j = some c := by
  induction l with
  | nil => intro last j c h _; simp at h
  | cons x xs ih =>
    intro last j c h hc
    cases j with
    | zero =>
      rw [List.get?_cons_zero] at h
      injection h with h
      subst h
      rw [ffillGo_cons, List.get?_cons_zero, if_neg hc]
    | succ j' =>
      rw [List.get?_cons_succ] at h
      rw [ffillGo_cons, List.get?_cons_succ]
      exact ih _ j' c h hc

theorem combineRows_get?_preserved (r : List Cell) :
    ∀ p j c, r.get? j = some c → c ≠ Cell.na → (combineRows p r).get? j = some c := by
  induction r with
  | nil => intro p j c h _; simp at h
  | cons x xs ih =>
    intro p j c h hc
    cases p with
    | nil => rw [combineRows_nil_left]; exact h
    | cons q ps =>
      cases j with
      | zero =>
        rw [List.get?_cons_zero] at h
        injection h with h
        subst h
        rw [combineRows_cons, List.get?_cons_zero, if_neg hc]
      | succ j' =>
        rw [List.get?_cons_succ] at h
        rw [combineRows_cons, List.get?_cons_succ]
        exact ih ps j' c h hc

theorem cellAt_cons_zero (r : List Cell) (rs : List (List Cell)) (j : ℕ) :
    cellAt (r :: rs) 0 j = r.get? j := rfl

theorem cellAt_cons_succ (r : List Cell) (rs : List (List Cell)) (i j : ℕ) :
    cellAt (r :: rs) (i + 1) j = cellAt rs i j := rfl

theorem colFillGo_cons (prev r : List Cell) (rs : List (List Cell)) :
    colFillGo prev (r :: rs) = combineRows prev r :: colFillGo (combineRows prev r) rs := rfl

theorem colFillGo_cellAt_preserved (h : List (List Cell)) :
    ∀ prev i j c, cellAt h i j = some c → c ≠ Cell.na →
      cellAt (colFillGo prev h) i j = some c := by
  induction h with
  | nil => intro prev i j c hcell _; simp [cellAt] at hcell
  | cons r rs ih =>
    intro prev i j c hcell hc
    cases i with
    | zero =>
      rw [cellAt_cons_zero] at hcell
      rw [colFillGo_cons, cellAt_cons_zero]
      exact combineRows_get?_preserved r prev j c hcell hc
    | succ i' =>
      rw [cellAt_cons_succ] at hcell
      rw [colFillGo_cons, cellAt_cons_succ]
      exact ih (combineRows prev r) i' j c hcell hc

/-- C6: Merged-cell repair is idempotent and only fills: applying the repair
(left-to-right row fill, then top-to-bottom column fill) twice yields the same
result as applying it once, and every cell that was non-empty before repair
keeps its value — repair never removes or changes an existing value. -/
theorem claim_C6_repair (g : List (List Cell)) (w : ℕ)
    (hrect : (g.all (fun r => r.length == w)) = true) :
    repairGrid (repairGrid g) = repairGrid g ∧
    (∀ i j c, cellAt g i j = some c → c ≠ Cell.na → cellAt (repairGrid g) i j = some c) := by
  have hrect' : ∀ r ∈ g, r.length = w := by
    intro r hr
    simpa using List.all_eq_true.mp hrect r hr
  constructor
  · have hh : ∀ r ∈ g.map ffillRow, FilledP r ∧ r.length = w := by
      intro r hr
      rcases List.mem_map.mp hr with ⟨r0, hr0, rfl⟩
      exact ⟨FilledP_ffillRow r0, by rw [ffillRow, ffillGo_length, hrect' r0 hr0]⟩
    have hfilled : ∀ r' ∈ colFillGo [] (g.map ffillRow), FilledP r' :=
      colFillGo_FilledP (g.map ffillRow) w [] hh (Or.inl rfl)
    show colFillGo [] ((colFillGo [] (g.map ffillRow)).map ffillRow) = _
    rw [map_ffillRow_of_FilledP _ hfilled]
    exact colFillGo_idem _ []
  · intro i j c hcell hc
    have hmap : cellAt (g.map ffillRow) i j = some c := by
      simp only [cellAt, List.get?_map] at hcell ⊢
      cases hg : g.get? i with
      | none => rw [hg] at hcell; simp at hcell
      | some r =>
        rw [hg] at hcell
        simp only [Option.map_some', Option.bind] at hcell ⊢
        exact ffillGo_get?_preserved r Cell.na j c hcell hc
    exact colFillGo_cellAt_preserved (g.map ffillRow) [] i j c hmap hc

/-- Witness for C6 at a concrete 2×2 grid with missing cells. -/
theorem claim_C6_witness :
    ([[Cell.int 1, Cell.na], [Cell.na, Cell.int 2]].all (fun r => r.length == 2)) = true ∧
    repairGrid (repairGrid [[Cell.int 1, Cell.na], [Cell.na, Cell.int 2]]) =
      repairGrid [[Cell.int 1, Cell.na], [Cell.na, Cell.int 2]] ∧
    cellAt (repairGrid [[Cell.int 1, Cell.na], [Cell.na, Cell.int 2]]) 1 1 = some (Cell.int 2) :=
  ⟨by decide,
   (claim_C6_repair [[Cell.int 1, Cell.na], [Cell.na, Cell.int 2]] 2 (by decide)).1,
   (claim_C6_repair [[Cell.int 1, Cell.na], [Cell.na, Cell.int 2]] 2 (by decide)).2
     1 1 (Cell.int 2) (by decide) (by decide)⟩

/-! ## Fuzzy Matcher (`fuzzy_match` lines 52–76, `find_best_match` lines 78–108) -/

/-- Length of the common prefix of two strings. -/
def commonPrefixLen : List Char → List Char → ℕ
  | a :: as, b :: bs => if a = b then commonPrefixLen as bs + 1 else 0
  | _, _ => 0

/-- The longest match of `difflib.SequenceMatcher.find_longest_match` over the whole strings:
the longest block `a[i:i+k] = b[j:j+k]`, ties broken by smallest `i`, then
smallest `j` (junk heuristics are not modelled; they are inert on the short
labels this parser matches). Returns `(i, j, k)`. -/
def findLongestMatch (a b : List Char) : ℕ × ℕ × ℕ :=
  (List.range a.length).foldl (fun best i =>
    (List.range b.length).foldl (fun best j =>
      let k := commonPrefixLen (a.drop i) (b.drop j)
      if best.2.2 < k then (i, j, k) else best) best) (0, 0, 0)

/-- Total matched size of `difflib.SequenceMatcher.get_matching_blocks`:
recursively take the longest match and recurse on the pieces to its left and
right.  `fuel` bounds the recursion depth; any `fuel ≥ a.length + b.length`
is enough, because every recursive call strictly shrinks the total length. -/
def matchTotal (fuel : ℕ) (a b : List Char) : ℕ :=
  match fuel with
  | 0 => 0
  | fuel + 1 =>
    let t := findLongestMatch a b
    if t.2.2 = 0 then 0
    else matchTotal fuel (a.take t.1) (b.take t.2.1) + t.2.2 +
         matchTotal fuel (a.drop (t.1 + t.2.2)) (b.drop (t.2.1 + t.2.2))

/-- The similarity ratio `difflib.SequenceMatcher(None, a, b).ratio() = 2·M / (len a + len b)`. -/
def seqRatio (a b : List Char) : ℚ :=
  if a.length + b.length = 0 then 1
  else mkRat (2 * matchTotal (a.length + b.length) a b) (a.length + b.length)

/-- The scorer `fuzzy_match` (lines 52–76): normalize both strings with
`str(x).lower().strip()`; score 1.0 on equality, 0.9 on containment either
way, else the sequence ratio. -/
def fuzzy_match (text target : String) : ℚ :=
  if pyNormChars text.data = pyNormChars target.data then 1
  else if strInL (pyNormChars target.data) (pyNormChars text.data) ||
          strInL (pyNormChars text.data) (pyNormChars target.data) then mkRat 9 10
  else seqRatio (pyNormChars text.data) (pyNormChars target.data)

/-- The final threshold step of `find_best_match`: return the tracked best
match with its score when `best_score >= 0.75`, else no match (the tracked
best is still `None` only when no candidate scored above 0). -/
def bestToResult : Option String × ℚ → Option (String × ℚ)
  | (some m, s) => if mkRat 3 4 ≤ s then some (m, s) else none
  | (none, _) => none

/-- The selector `find_best_match` (lines 78–108): scan candidates keeping the strictly
best score; return the best candidate with its score if the best score
reaches the 0.75 threshold, else no match. -/
def find_best_match (text : String) (candidates : List String) : Option (String × ℚ) :=
  if candidates = [] then none
  else if trimChars text.data = [] then none
  else
    bestToResult (candidates.foldl (fun (best : Option String × ℚ) c =>
      if best.2 < fuzzy_match (⟨trimChars text.data⟩ : String) c
      then (some c, fuzzy_match (⟨trimChars text.data⟩ : String) c)
      else best) (none, 0))

theorem commonPrefixLen_le_left : ∀ x y : List Char, commonPrefixLen x y ≤ x.length := by
  intro x
  induction x with
  | nil => intro y; cases y <;> simp [commonPrefixLen]
  | cons a as ih =>
    intro y
    cases y with
    | nil => simp [commonPrefixLen]
    | cons b bs =>
      by_cases hab : a = b
      · simp only [commonPrefixLen, if_pos hab, List.length_cons]
        exact Nat.succ_le_succ (ih bs)
      · simp [commonPrefixLen, if_neg hab]

theorem commonPrefixLen_le_right : ∀ x y : List Char, commonPrefixLen x y ≤ y.length := by
  intro x
  induction x with
  | nil => intro y; cases y <;> simp [commonPrefixLen]
  | cons a as ih =>
    intro y
    cases y with
    | nil => simp [commonPrefixLen]
    | cons b bs =>
      by_cases hab : a = b
      · simp only [commonPrefixLen, if_pos hab, List.length_cons]
        exact Nat.succ_le_succ (ih bs)
      · simp [commonPrefixLen, if_neg hab]

theorem foldl_invariant {α β : Type} (P : β → Prop) (f : β → α → β) (l : List α) :
    ∀ init : β, P init → (∀ s x, P s → P (f s x)) → P (l.foldl f init) := by
  induction l with
  | nil => intro init h0 _; exact h0
  | cons a as ih =>
    intro init h0 hstep
    exact ih (f init a) (hstep init a h0) hstep

theorem findLongestMatch_bounds (a b : List Char) :
    (findLongestMatch a b).2.2 ≤ (a.drop (findLongestMatch a b).1).length ∧
    (findLongestMatch a b).2.2 ≤ (b.drop (findLongestMatch a b).2.1).length := by
  unfold findLongestMatch
  apply foldl_invariant
    (P := fun s : ℕ × ℕ × ℕ => s.2.2 ≤ (a.drop s.1).length ∧ s.2.2 ≤ (b.drop s.2.1).length)
  · simp
  · intro s i hs
    apply foldl_invariant
      (P := fun s : ℕ × ℕ × ℕ => s.2.2 ≤ (a.drop s.1).length ∧ s.2.2 ≤ (b.drop s.2.1).length)
    · exact hs
    · intro s' j hs'
      by_cases hlt : s'.2.2 < commonPrefixLen (a.drop i) (b.drop j)
      · simp only [if_pos hlt]
        exact ⟨commonPrefixLen_le_left _ _, commonPrefixLen_le_right _ _⟩
      · simp only [if_neg hlt]
        exact hs'

theorem matchTotal_le_left : ∀ (fuel : ℕ) (a b : List Char), matchTotal fuel a b ≤ a.length := by
  intro fuel
  induction fuel with
  | zero => intro a b; exact Nat.zero_le _
  | succ n ih =>
    intro a b
    have hb := findLongestMatch_bounds a b
    rcases hb with ⟨h1, h2⟩
    by_cases hk : (findLongestMatch a b).2.2 = 0
    · simp [matchTotal, hk]
    · simp only [matchTotal, if_neg hk]
      have hia : (findLongestMatch a b).1 + (findLongestMatch a b).2.2 ≤ a.length := by
        rw [List.length_drop] at h1
        omega
      have e1 := ih (a.take (findLongestMatch a b).1) (b.take (findLongestMatch a b).2.1)
      have e2 := ih (a.drop ((findLongestMatch a b).1 + (findLongestMatch a b).2.2))
        (b.drop ((findLongestMatch a b).2.1 + (findLongestMatch a b).2.2))
      rw [List.length_take] at e1
      rw [List.length_drop] at e2
      omega

theorem matchTotal_le_right : ∀ (fuel : ℕ) (a b : List Char), matchTotal fuel a b ≤ b.length := by
  intro fuel
  induction fuel with
  | zero => intro a b; exact Nat.zero_le _
  | succ n ih =>
    intro a b
    have hb := findLongestMatch_bounds a b
    rcases hb with ⟨h1, h2⟩
    by_cases hk : (findLongestMatch a b).2.2 = 0
    · simp [matchTotal, hk]
    · simp only [matchTotal, if_neg hk]
      have hjb : (findLongestMatch a b).2.1 + (findLongestMatch a b).2.2 ≤ b.length := by
        rw [List.length_drop] at h2
        omega
      have e1 := ih (a.take (findLongestMatch a b).1) (b.take (findLongestMatch a b).2.1)
      have e2 := ih (a.drop ((findLongestMatch a b).1 + (findLongestMatch a b).2.2))
        (b.drop ((findLongestMatch a b).2.1 + (findLongestMatch a b).2.2))
      rw [List.length_take] at e1
      rw [List.length_drop] at e2
      omega

theorem seqRatio_nonneg (a b : List Char) : 0 ≤ seqRatio a b := by
  unfold seqRatio
  split
  · exact zero_le_one
  · rw [Rat.mkRat_eq_div]
    positivity

theorem seqRatio_le_one (a b : List Char) : seqRatio a b ≤ 1 := by
  unfold seqRatio
  split
  next h => exact le_refl 1
  next h =>
    rw [Rat.mkRat_eq_div]
    have hpos : (0 : ℚ) < ((a.length + b.length : ℕ) : ℚ) := by
      exact_mod_cast Nat.pos_of_ne_zero h
    rw [div_le_one hpos]
    have h1 := matchTotal_le_left (a.length + b.length) a b
    have h2 := matchTotal_le_right (a.length + b.length) a b
    have : 2 * matchTotal (a.length + b.length) a b ≤ a.length + b.length := by omega
    exact_mod_cast this

theorem fuzzy_match_nonneg (t c : String) : 0 ≤ fuzzy_match t c := by
  unfold fuzzy_match
  split
  · exact zero_le_one
  · split
    · decide
    · exact seqRatio_nonneg _ _

theorem fuzzy_match_le_one (t c : String) : fuzzy_match t c ≤ 1 := by
  unfold fuzzy_match
  split
  · exact le_refl 1
  · split
    · decide
    · exact seqRatio_le_one _ _

theorem bestFold_snd_mono {α : Type} (f : α → ℚ) (l : List α) :
    ∀ b : Option α × ℚ,
      b.2 ≤ (l.foldl (fun best c => if best.2 < f c then (some c, f c) else best) b).2 := by
  induction l with
  | nil => intro b; exact le_refl _
  | cons c cs ih =>
    intro b
    by_cases h : b.2 < f c
    · have h1 := ih (some c, f c)
      simp only [List.foldl_cons, if_pos h]
      exact le_trans (le_of_lt h) h1
    · have h1 := ih b
      simp only [List.foldl_cons, if_neg h]
      exact h1

theorem bestFold_ge_scores {α : Type} (f : α → ℚ) (l : List α) :
    ∀ b : Option α × ℚ, ∀ c ∈ l,
      f c ≤ (l.foldl (fun best x => if best.2 < f x then (some x, f x) else best) b).2 := by
  induction l with
  | nil => intro b c hc; simp at hc
  | cons a as ih =>
    intro b c hc
    rcases List.mem_cons.mp hc with h1 | h2
    · subst h1
      by_cases h : b.2 < f c
      · simp only [List.foldl_cons, if_pos h]
        have := bestFold_snd_mono f as (some c, f c)
        exact le_trans (le_refl (f c)) this
      · simp only [List.foldl_cons, if_neg h]
        have := bestFold_snd_mono f as b
        exact le_trans (not_lt.mp h) this
    · by_cases h : b.2 < f a
      · simp only [List.foldl_cons, if_pos h]
        exact ih (some a, f a) c h2
      · simp only [List.foldl_cons, if_neg h]
        exact ih b c h2

theorem bestFold_cases {α : Type} (f : α → ℚ) (l : List α) :
    ∀ b : Option α × ℚ,
      l.foldl (fun best x => if best.2 < f x then (some x, f x) else best) b = b ∨
      ∃ i : ℕ, ∃ hi : i < l.length,
        l.foldl (fun best x => if best.2 < f x then (some x, f x) else best) b =
          (some (l.get ⟨i, hi⟩), f (l.get ⟨i, hi⟩)) ∧
        b.2 < f (l.get ⟨i, hi⟩) ∧
        ∀ j : ℕ, ∀ hj : j < l.length, j < i → f (l.get ⟨j, hj⟩) < f (l.get ⟨i, hi⟩) := by
  induction l with
  | nil => intro b; exact Or.inl rfl
  | cons c cs ih =>
    intro b
    by_cases h : b.2 < f c
    · rcases ih (some c, f c) with h0 | ⟨i, hi, heq, hlt, hall⟩
      · right
        refine ⟨0, Nat.succ_pos _, ?_, ?_, ?_⟩
        · simp only [List.foldl_cons, if_pos h]
          rw [h0]
          rfl
        · exact h
        · intro j hj hji; omega
      · right
        refine ⟨i + 1, by simpa using Nat.succ_lt_succ hi, ?_, ?_, ?_⟩
        · simp only [List.foldl_cons, if_pos h]
          rw [heq]
          simp [List.get_cons_succ]
        · have : (f c : ℚ) < f (cs.get ⟨i, hi⟩) := hlt
          simp only [List.get_cons_succ]
          exact lt_trans h this
        · intro j hj hji
          cases j with
          | zero =>
            simp only [List.get_cons_succ, List.get_cons_zero]
            exact hlt
          | succ j' =>
            simp only [List.get_cons_succ]
            exact hall j' (by omega) (by omega)
    · rcases ih b with h0 | ⟨i, hi, heq, hlt, hall⟩
      · left
        simp only [List.foldl_cons, if_neg h]
        exact h0
      · right
        refine ⟨i + 1, by simpa using Nat.succ_lt_succ hi, ?_, ?_, ?_⟩
        · simp only [List.foldl_cons, if_neg h]
          rw [heq]
          simp [List.get_cons_succ]
        · simp only [List.get_cons_succ]
          exact hlt
        · intro j hj hji
          cases j with
          | zero =>
            simp only [List.get_cons_succ, List.get_cons_zero]
            exact lt_of_le_of_lt (not_lt.mp h) hlt
          | succ j' =>
            simp only [List.get_cons_succ]
            exact hall j' (by omega) (by omega)

/-- C2: For every non-empty text and every candidate list, the Fuzzy Matcher
scores each candidate as 1.0 on case-insensitive whitespace-trimmed exact
equality, 0.9 when one normalized string contains the other, and otherwise by
a longest-matching-subsequence similarity ratio in [0,1]; it returns the
candidate with the strictly highest score together with that score when the
best score reaches the 0.75 threshold, returns no match when no candidate
reaches the threshold, and breaks ties by candidate enumeration order (the
first-seen candidate with the best score wins). -/
theorem claim_C2_fuzzy_matcher (text : String) (cands : List String)
    (hne : trimChars text.data ≠ []) :
    (∀ t c : String, 0 ≤ fuzzy_match t c ∧ fuzzy_match t c ≤ 1) ∧
    (∀ t c : String, pyNormChars t.data = pyNormChars c.data → fuzzy_match t c = 1) ∧
    (∀ t c : String, pyNormChars t.data ≠ pyNormChars c.data →
      (strInL (pyNormChars c.data) (pyNormChars t.data) ||
       strInL (pyNormChars t.data) (pyNormChars c.data)) = true →
      fuzzy_match t c = mkRat 9 10) ∧
    (∀ t c : String, pyNormChars t.data ≠ pyNormChars c.data →
      (strInL (pyNormChars c.data) (pyNormChars t.data) ||
       strInL (pyNormChars t.data) (pyNormChars c.data)) = false →
      fuzzy_match t c = seqRatio (pyNormChars t.data) (pyNormChars c.data)) ∧
    (find_best_match text cands = none ↔
      ∀ c ∈ cands, fuzzy_match (⟨trimChars text.data⟩ : String) c < mkRat 3 4) ∧
    (∀ m s, find_best_match text cands = some (m, s) →
      mkRat 3 4 ≤ s ∧
      ∃ i : ℕ, ∃ hi : i < cands.length,
        cands.get ⟨i, hi⟩ = m ∧ s = fuzzy_match (⟨trimChars text.data⟩ : String) m ∧
        (∀ c ∈ cands, fuzzy_match (⟨trimChars text.data⟩ : String) c ≤ s) ∧
        (∀ j : ℕ, ∀ hj : j < cands.length, j < i →
          fuzzy_match (⟨trimChars text.data⟩ : String) (cands.get ⟨j, hj⟩) < s)) := by
  refine ⟨fun t c => ⟨fuzzy_match_nonneg t c, fuzzy_match_le_one t c⟩, ?_, ?_, ?_, ?_, ?_⟩
  · intro t c h
    simp [fuzzy_match, h]
  · intro t c h hin
    simp [fuzzy_match, h, hin]
  · intro t c h hin
    simp [fuzzy_match, h, hin]
  · constructor
    · intro hnone c hc
      by_cases hcand : cands = []
      · subst hcand; simp at hc
      · simp only [find_best_match, if_neg hcand, if_neg hne] at hnone
        rcases bestFold_cases
            (fun c => fuzzy_match (⟨trimChars text.data⟩ : String) c) cands (none, 0) with
          h0 | ⟨i, hi, hfold, hlt, hall⟩
        · have hle := bestFold_ge_scores
            (fun c => fuzzy_match (⟨trimChars text.data⟩ : String) c) cands (none, 0) c hc
          rw [h0] at hle
          exact lt_of_le_of_lt hle (by decide)
        · rw [hfold] at hnone
          simp only [bestToResult] at hnone
          by_cases hth : mkRat 3 4 ≤
              fuzzy_match (⟨trimChars text.data⟩ : String) (cands.get ⟨i, hi⟩)
          · rw [if_pos hth] at hnone
            exact absurd hnone (by simp)
          · have hmax := bestFold_ge_scores
              (fun c => fuzzy_match (⟨trimChars text.data⟩ : String) c) cands (none, 0) c hc
            rw [hfold] at hmax
            exact lt_of_le_of_lt hmax (not_le.mp hth)
    · intro hall
      by_cases hcand : cands = []
      · subst hcand
        simp [find_best_match]
      · simp only [find_best_match, if_neg hcand, if_neg hne]
        rcases bestFold_cases
            (fun c => fuzzy_match (⟨trimChars text.data⟩ : String) c) cands (none, 0) with
          h0 | ⟨i, hi, hfold, hlt, halls⟩
        · rw [h0]
          rfl
        · rw [hfold]
          simp only [bestToResult]
          have hbelow := hall (cands.get ⟨i, hi⟩) (List.get_mem cands i hi)
          rw [if_neg (not_le.mpr hbelow)]
  · intro m s heq'
    by_cases hcand : cands = []
    · subst hcand
      simp [find_best_match] at heq'
    · simp only [find_best_match, if_neg hcand, if_neg hne] at heq'
      rcases bestFold_cases
          (fun c => fuzzy_match (⟨trimChars text.data⟩ : String) c) cands (none, 0) with
        h0 | ⟨i, hi, hfold, hlt, hall⟩
      · rw [h0] at heq'
        exact absurd heq' (by simp [bestToResult])
      · rw [hfold] at heq'
        simp only [bestToResult] at heq'
        by_cases hth : mkRat 3 4 ≤
            fuzzy_match (⟨trimChars text.data⟩ : String) (cands.get ⟨i, hi⟩)
        · rw [if_pos hth] at heq'
          injection heq' with heq2
          have hm : cands.get ⟨i, hi⟩ = m := congrArg Prod.fst heq2
          have hs : fuzzy_match (⟨trimChars text.data⟩ : String) (cands.get ⟨i, hi⟩) = s :=
            congrArg Prod.snd heq2
          refine ⟨by rw [← hs]; exact hth, i, hi, hm, by rw [← hm]; exact hs.symm, ?_, ?_⟩
          · intro c hc
            rw [← hs]
            have := bestFold_ge_scores
              (fun c => fuzzy_match (⟨trimChars text.data⟩ : String) c) cands (none, 0) c hc
            rw [hfold] at this
            exact this
          · intro j hj hji
            rw [← hs]
            exact hall j hj hji
        · rw [if_neg hth] at heq'
          exact absurd heq' (by simp)

/-- Witness for C2: a dissimilar candidate yields no match; an exactly equal
candidate (up to case and whitespace) scores 1.0. -/
theorem claim_C2_witness :
    trimChars "zzz".data ≠ [] ∧
    find_best_match "zzz" ["qqq"] = none ∧
    fuzzy_match "nOrTh " "NORTH" = 1 :=
  ⟨by decide,
   (claim_C2_fuzzy_matcher "zzz" ["qqq"] (by decide)).2.2.2.2.1.mpr (by decide),
   (claim_C2_fuzzy_matcher "zzz" ["qqq"] (by decide)).2.1 "nOrTh " "NORTH" (by decide)⟩

/-! ## Structural Detector: data boundaries (`detect_data_boundaries`, lines 174–216) -/

/-- pandas `row.notna().sum()`: number of non-missing cells in a row. -/
def nonNaCount (r : List Cell) : ℕ := r.countP (fun c => !(c == Cell.na))

/-- Python `df.iloc[i]` row read with negative indexing, in its non-raising
range (the boundary scan accesses rows in increasing order, so a raising
access can only happen at the very first index; `detect_data_boundaries`
surfaces that case as an error up front). -/
def rowAtZ (g : List (List Cell)) (i : ℤ) : List Cell :=
  if i < 0 then g.getD (i + (g.length : ℤ)).toNat [] else g.getD i.toNat []

/-- The scan of `detect_data_boundaries` over `range(start_row, len(df))`:
stop at the first row with fewer than `expected_cols` non-empty cells that is
confirmed by the 3-row lookahead — or that has fewer than two rows after it
in the grid — and return the preceding row index; reaching the end of the
grid yields `len - 1`.  `fuel` is the number of remaining loop iterations;
the caller passes `(len - start).toNat`, making `fuel = 0` exactly the
loop-exhausted case. -/
def findEndLoop (g : List (List Cell)) (exp : ℕ) : ℕ → ℤ → ℤ
  | 0, _ => (g.length : ℤ) - 1
  | fuel + 1, idx =>
    if nonNaCount (rowAtZ g idx) < exp then
      if idx + 2 < (g.length : ℤ) then
        if nonNaCount (rowAtZ g idx) < exp ∧ nonNaCount (rowAtZ g (idx + 1)) < exp ∧
           nonNaCount (rowAtZ g (idx + 2)) < exp then idx - 1
        else findEndLoop g exp fuel (idx + 1)
      else idx - 1
    else findEndLoop g exp fuel (idx + 1)

/-- The detector `detect_data_boundaries` (lines 174–216): the data block starts right
after the header row; the end is detected by scanning for a confirmed sparse
row.  A start row below `-len(df)` makes the first `df.iloc[idx]` access of
the scan raise `IndexError`. -/
def detect_data_boundaries (g : List (List Cell)) (headerRow : ℤ) (exp : ℕ) :
    Except PErr (ℤ × ℤ) :=
  if headerRow + 1 < -(g.length : ℤ) then Except.error PErr.indexError
  else Except.ok (headerRow + 1,
    findEndLoop g exp ((g.length : ℤ) - (headerRow + 1)).toNat (headerRow + 1))

/-- Row `i` has fewer than `exp` non-empty cells. -/
def sparseRow (g : List (List Cell)) (exp : ℕ) (i : ℕ) : Prop :=
  nonNaCount (g.getD i []) < exp

instance (g : List (List Cell)) (exp i : ℕ) : Decidable (sparseRow g exp i) := by
  unfold sparseRow; exact Nat.decLt _ _

/-- A row at which the code's scan ends the data block: a sparse row that is
either confirmed by its two following rows (3-row lookahead) or lies within
the last two rows of the grid (no lookahead possible). -/
def endsBlockAt (g : List (List Cell)) (exp : ℕ) (i : ℕ) : Prop :=
  i < g.length ∧ sparseRow g exp i ∧
    (i + 2 < g.length → (sparseRow g exp (i + 1) ∧ sparseRow g exp (i + 2)))

instance (g : List (List Cell)) (exp i : ℕ) : Decidable (endsBlockAt g exp i) := by
  unfold endsBlockAt; infer_instance

theorem rowAtZ_natCast (g : List (List Cell)) (s : ℕ) : rowAtZ g (s : ℤ) = g.getD s [] := by
  unfold rowAtZ
  rw [if_neg (by omega : ¬ ((s : ℤ) < 0))]
  rw [(by omega : ((s : ℤ)).toNat = s)]

theorem findEndLoop_first (g : List (List Cell)) (exp : ℕ) :
    ∀ (fuel : ℕ) (s : ℕ), fuel = g.length - s →
      ((∀ i : ℕ, s ≤ i → endsBlockAt g exp i →
          (∀ j : ℕ, s ≤ j → j < i → ¬ endsBlockAt g exp j) →
          findEndLoop g exp fuel (s : ℤ) = (i : ℤ) - 1) ∧
       ((∀ i : ℕ, s ≤ i → ¬ endsBlockAt g exp i) →
          findEndLoop g exp fuel (s : ℤ) = (g.length : ℤ) - 1)) := by
  intro fuel
  induction fuel with
  | zero =>
    intro s hfuel
    have hs : g.length ≤ s := by omega
    constructor
    · intro i hsi hend _
      exact absurd hend.1 (by omega)
    · intro _
      rfl
  | succ n ih =>
    intro s hfuel
    have hslen : s < g.length := by omega
    have e0 : rowAtZ g (s : ℤ) = g.getD s [] := rowAtZ_natCast g s
    have ec1 : (s : ℤ) + 1 = ((s + 1 : ℕ) : ℤ) := by push_cast; ring
    have ec2 : (s : ℤ) + 2 = ((s + 2 : ℕ) : ℤ) := by push_cast; ring
    have e1 : rowAtZ g ((s : ℤ) + 1) = g.getD (s + 1) [] := by
      rw [ec1, rowAtZ_natCast]
    have e2 : rowAtZ g ((s : ℤ) + 2) = g.getD (s + 2) [] := by
      rw [ec2, rowAtZ_natCast]
    by_cases hsp : nonNaCount (g.getD s []) < exp
    · by_cases hlk : (s : ℤ) + 2 < (g.length : ℤ)
      · by_cases hall3 : nonNaCount (g.getD s []) < exp ∧
            nonNaCount (g.getD (s + 1) []) < exp ∧ nonNaCount (g.getD (s + 2) []) < exp
        · have hendS : endsBlockAt g exp s :=
            ⟨hslen, hsp, fun _ => ⟨hall3.2.1, hall3.2.2⟩⟩
          have heval : findEndLoop g exp (n + 1) (s : ℤ) = (s : ℤ) - 1 := by
            simp only [findEndLoop]
            rw [e0, e1, e2, if_pos hsp, if_pos hlk, if_pos hall3]
          constructor
          · intro i hsi hend hmin
            have hie : i = s := by
              by_contra hne
              exact hmin s (le_refl s) (by omega) hendS
            rw [heval, hie]
          · intro hnone
            exact absurd hendS (hnone s (le_refl s))
        · have hnotend : ¬ endsBlockAt g exp s := by
            intro hend
            have h3 := hend.2.2 (by exact_mod_cast hlk)
            exact hall3 ⟨hsp, h3.1, h3.2⟩
          have heval : findEndLoop g exp (n + 1) (s : ℤ) =
              findEndLoop g exp n ((s : ℤ) + 1) := by
            simp only [findEndLoop]
            rw [e0, e1, e2, if_pos hsp, if_pos hlk, if_neg hall3]
          have ihs := ih (s + 1) (by omega)
          constructor
          · intro i hsi hend hmin
            have hi1 : s + 1 ≤ i := by
              rcases Nat.eq_or_lt_of_le hsi with he | hl
              · exact absurd (he ▸ hend) hnotend
              · omega
            rw [heval, ec1]
            exact ihs.1 i hi1 hend (fun j hj hji => hmin j (by omega) hji)
          · intro hnone
            rw [heval, ec1]
            exact ihs.2 (fun i hi => hnone i (by omega))
      · have hendS : endsBlockAt g exp s :=
          ⟨hslen, hsp, fun hc => absurd (by exact_mod_cast hc : (s : ℤ) + 2 < (g.length : ℤ)) hlk⟩
        have heval : findEndLoop g exp (n + 1) (s : ℤ) = (s : ℤ) - 1 := by
          simp only [findEndLoop]
          rw [e0, if_pos hsp, if_neg hlk]
        constructor
        · intro i hsi hend hmin
          have hie : i = s := by
            by_contra hne
            exact hmin s (le_refl s) (by omega) hendS
          rw [heval, hie]
        · intro hnone
          exact absurd hendS (hnone s (le_refl s))
    · have hnotend : ¬ endsBlockAt g exp s := fun hend => hsp hend.2.1
      have heval : findEndLoop g exp (n + 1) (s : ℤ) =
          findEndLoop g exp n ((s : ℤ) + 1) := by
        simp only [findEndLoop]
        rw [e0, if_neg hsp]
      have ihs := ih (s + 1) (by omega)
      constructor
      · intro i hsi hend hmin
        have hi1 : s + 1 ≤ i := by
          rcases Nat.eq_or_lt_of_le hsi with he | hl
          · exact absurd (he ▸ hend) hnotend
          · omega
        rw [heval, ec1]
        exact ihs.1 i hi1 hend (fun j hj hji => hmin j (by omega) hji)
      · intro hnone
        rw [heval, ec1]
        exact ihs.2 (fun i hi => hnone i (by omega))

/-- Modelled from the claim's words for C3: the block ends at the row
preceding the first row with fewer than the minimum non-empty cells *whose
two following rows also fall below that minimum* (3-row lookahead); if no
such confirmed sparse row exists the block ends at the last row of the grid.
(Rows beyond the end of the grid cannot serve as confirmation; on the
counterexample grid below both readings of out-of-grid rows agree.) -/
def claimEndRowC3 (g : List (List Cell)) (exp : ℕ) : ℕ → ℕ → ℤ
  | 0, _ => (g.length : ℤ) - 1
  | fuel + 1, i =>
    if i + 2 < g.length ∧ sparseRow g exp i ∧ sparseRow g exp (i + 1) ∧ sparseRow g exp (i + 2)
    then (i : ℤ) - 1
    else claimEndRowC3 g exp fuel (i + 1)

/-- A dense row (4 non-empty cells) for the C3 grids. -/
def denseRow4 : List Cell := [Cell.int 1, Cell.int 2, Cell.int 3, Cell.int 4]

/-- A sparse row (1 non-empty cell) for the C3 grids. -/
def sparseRow4 : List Cell := [Cell.int 1, Cell.na, Cell.na, Cell.na]

/-- An empty row for the C3 grids. -/
def emptyRow4 : List Cell := [Cell.na, Cell.na, Cell.na, Cell.na]

/-- Counterexample grid for C3: a header row, three dense data rows, a single
sparse row at index 4, and a dense row at index 5 (the last row). -/
def c3Grid : List (List Cell) :=
  [denseRow4, denseRow4, denseRow4, denseRow4, sparseRow4, denseRow4]

/-- C3 counterexample: on `c3Grid` (header row 0), row 4 is a single sparse
row followed by a dense row, so by the claim it cannot end the block and the
block should run to the last row (end row 5); the code ends the block at
row 3 because a sparse row within the last two rows of the grid is accepted
without the 3-row lookahead. -/
theorem claim_C3_counterexample :
    detect_data_boundaries c3Grid 0 4 = Except.ok (1, 3) ∧
    claimEndRowC3 c3Grid 4 c3Grid.length 1 = 5 ∧
    sparseRow c3Grid 4 4 ∧
    ¬ sparseRow c3Grid 4 5 ∧
    (3 : ℤ) ≠ 5 := by decide

/-- C3 (amended): for every grid and every header row index, boundary
detection starts the data block immediately after the header row and ends it
at the row preceding the first row with fewer than the configured minimum of
non-empty cells, where a sparse row counts as block-ending when the two
following rows also fall below the minimum (3-row lookahead) **or** when it
lies within the last two rows of the grid (no lookahead is possible there);
a single sparse row followed by dense rows, with at least two rows after it,
does not end the block; if no block-ending row exists the block ends at the
last row of the grid. -/
theorem claim_C3_amended (g : List (List Cell)) (exp : ℕ) (h : ℕ) :
    (∀ i : ℕ, h + 1 ≤ i → endsBlockAt g exp i →
      (∀ j : ℕ, h + 1 ≤ j → j < i → ¬ endsBlockAt g exp j) →
      detect_data_boundaries g (h : ℤ) exp = Except.ok ((h : ℤ) + 1, (i : ℤ) - 1)) ∧
    ((∀ i : ℕ, h + 1 ≤ i → ¬ endsBlockAt g exp i) →
      detect_data_boundaries g (h : ℤ) exp = Except.ok ((h : ℤ) + 1, (g.length : ℤ) - 1)) := by
  have hnoerr : ¬ ((h : ℤ) + 1 < -(g.length : ℤ)) := by omega
  have hcast : (h : ℤ) + 1 = ((h + 1 : ℕ) : ℤ) := by push_cast; ring
  have hfuel : ((g.length : ℤ) - ((h : ℤ) + 1)).toNat = g.length - (h + 1) := by omega
  have hspec := findEndLoop_first g exp (g.length - (h + 1)) (h + 1) rfl
  constructor
  · intro i hi hend hmin
    unfold detect_data_boundaries
    rw [if_neg hnoerr, hfuel, hcast, hspec.1 i hi hend hmin]
  · intro hnone
    unfold detect_data_boundaries
    rw [if_neg hnoerr, hfuel, hcast, hspec.2 hnone]

/-- The spec's boundary example grid: a header row, 5 fully-populated data
rows, then 3 empty rows. -/
def c3Grid5 : List (List Cell) :=
  [denseRow4, denseRow4, denseRow4, denseRow4, denseRow4, denseRow4,
   emptyRow4, emptyRow4, emptyRow4]

/-- Witness for C3 (amended): on 5 fully-populated data rows followed by 3
empty rows the block ends at the 5th data row (row index 5 with the header at
row 0), not at the first empty row. -/
theorem claim_C3_witness :
    endsBlockAt c3Grid5 4 6 ∧
    detect_data_boundaries c3Grid5 0 4 = Except.ok (1, 5) :=
  ⟨by decide,
   (claim_C3_amended c3Grid5 4 0).1 6 (by omega) (by decide)
     (by intro j h1 h2; interval_cases j <;> decide)⟩

/-! ## Tables and the section parsing pipeline (lines 342–519) -/

/-- A `pandas` table: column labels plus row-major cells.  Labels are cell
values: `read_excel(..., header=None)` yields positional integer labels and
`df_section.columns = headers` installs the header row's values. -/
structure Table : Type where
  names : List Cell
  rows : List (List Cell)
  deriving DecidableEq, Repr

/-- Normalization of one Python slice bound for a list of length `n`. -/
def pySliceIdx (n : ℕ) (i : ℤ) : ℕ :=
  if i < 0 then (i + n).toNat else min i.toNat n

/-- Python row slice `df.iloc[a:b]` (clamping; negative indices from the end). -/
def pySlice (g : List (List Cell)) (a b : ℤ) : List (List Cell) :=
  (g.take (pySliceIdx g.length b)).drop (pySliceIdx g.length a)

/-- The repair step `detect_merged_cells` (lines 110–141): extract `df.iloc[start:end+1]` and
repair merged cells by the row-then-column forward fill. -/
def detect_merged_cells (g : List (List Cell)) (s e : ℤ) : List (List Cell) :=
  repairGrid (pySlice g s (e + 1))

/-- Python single-row positional access `df.iloc[i]`: negative indices count
from the end; out-of-range access raises `IndexError`. -/
def pyRowAt (g : List (List Cell)) (i : ℤ) : Except PErr (List Cell) :=
  if 0 ≤ i ∧ i < (g.length : ℤ) then Except.ok (g.getD i.toNat [])
  else if -(g.length : ℤ) ≤ i ∧ i < 0 then Except.ok (g.getD (i + (g.length : ℤ)).toNat [])
  else Except.error PErr.indexError

/-- pandas `df_raw.shape[1]`: the (rectangular) grid's column count. -/
def gridWidth (g : List (List Cell)) : ℕ := (g.head?.map List.length).getD 0

/-- How many keywords have a case-insensitive substring hit in some cell of
the row (`find_header_row`'s match count). -/
def keywordMatches (kws : List String) (r : List Cell) : ℕ :=
  kws.countP (fun kw => r.any (fun c => strInL (lowerChars kw.data) (pyNormChars (pyStrChars c))))

/-- The scan of `find_header_row` over `range(search_start, min(search_end, len))`. -/
def headerLoop (g : List (List Cell)) (kws : List String) : ℕ → ℕ → Option ℕ
  | 0, _ => none
  | fuel + 1, idx =>
    if min 2 kws.length ≤ keywordMatches kws (g.getD idx []) then some idx
    else headerLoop g kws fuel (idx + 1)

/-- The search `find_header_row` (lines 143–172): first row in the search window
matching at least `min(2, len(keywords))` keywords, else not found. -/
def find_header_row (g : List (List Cell)) (kws : List String)
    (searchStart searchEnd : ℕ) : Option ℕ :=
  headerLoop g kws (min searchEnd g.length - searchStart) searchStart

/-- The dashboard configuration keys consumed by the parser (all optional;
`branches` is the canonical branch list). -/
structure Config : Type where
  branches : List String := []
  revenue_header_row : Option ℤ := none
  revenue_start_row : Option ℤ := none
  revenue_end_row : Option ℤ := none
  costs_header_row : Option ℤ := none
  costs_start_row : Option ℤ := none
  costs_end_row : Option ℤ := none
  hours_header_row : Option ℤ := none
  hours_start_row : Option ℤ := none
  hours_end_row : Option ℤ := none
  revenue_sheet : Option ℕ := none
  costs_sheet : Option ℕ := none
  hours_sheet : Option ℕ := none
  deriving DecidableEq, Repr

/-- The pass-through label column names (`['Period', 'Month', 'Week', 'Date']`). -/
def labelNames : List String := ["Period", "Month", "Week", "Date"]

/-- Python `col in ['Period', 'Month', 'Week', 'Date']` on a column label. -/
def isLabelName : Cell → Bool
  | Cell.str s => labelNames.contains s
  | _ => false

/-- The header assignment `headers = df_raw.iloc[header_row].fillna('Unnamed')`. -/
def setHeaders (hdr : List Cell) : List Cell :=
  hdr.map (fun c => if c == Cell.na then Cell.str "Unnamed" else c)

/-- The positional `RangeIndex` column labels of a header-less read. -/
def positionalNames (w : ℕ) : List Cell :=
  (List.range w).map (fun i => Cell.int i)

/-- The filter `remove_total_rows` on a table (first column of `df`). -/
def remove_total_rowsT (t : Table) : Table :=
  { t with rows := remove_total_rows t.names.length t.rows }

/-- The filter `remove_comment_rows` on a table. -/
def remove_comment_rowsT (t : Table) : Table :=
  { t with rows := remove_comment_rows t.names.length t.rows }

/-- The renamer `standardize_column_names` (lines 275–305): fuzzy-match every stringified,
stripped column label against the canonical branches; unmatched labels pass
through (stringified and stripped). -/
def standardize_column_names (t : Table) (branches : List String) : Table :=
  { t with names := t.names.map (fun c =>
      match find_best_match (⟨trimChars (pyStrChars c)⟩ : String) branches with
      | some (m, _) => Cell.str m
      | none => Cell.str (⟨trimChars (pyStrChars c)⟩ : String)) }

/-- One cell through the Value Cleaner, back into a cell. -/
def cleanCell (c : Cell) : Cell :=
  match clean_numeric_value c with
  | some q => Cell.num q
  | none => Cell.na

/-- Step 8 of the section parsers: apply the Value Cleaner to every cell of
every non-label column (columns are matched positionally; the spec's data
model requires column labels to be unique). -/
def clean_numeric_columns (t : Table) : Table :=
  { t with rows := t.rows.map (fun r =>
      List.zipWith (fun nm c => if isLabelName nm then c else cleanCell c) t.names r) }

/-- pandas `df_section.dropna(how='all')`. -/
def dropAllNaRows (t : Table) : Table :=
  { t with rows := t.rows.filter (fun r => !(r.all (fun c => c == Cell.na))) }

/-- Steps 3–10 shared by the three section parsers: extract and repair the
range, install headers when the header row precedes the data start (a raising
access when the header row is out of range), remove total rows then comment
rows, standardize labels, clean numeric columns, drop all-missing rows and
reset the index. -/
def parseSectionSteps (g : List (List Cell)) (branches : List String)
    (headerRow s e : ℤ) : Except PErr Table := do
  let sec := detect_merged_cells g s e
  let t ← (if headerRow < s then do
      let hdr ← pyRowAt g headerRow
      pure ({ names := setHeaders hdr, rows := sec } : Table)
    else pure ({ names := positionalNames (gridWidth g), rows := sec } : Table))
  let t := remove_total_rowsT t
  let t := remove_comment_rowsT t
  let t := standardize_column_names t branches
  let t := clean_numeric_columns t
  let t := dropAllNaRows t
  pure t

/-- The revenue parser `parse_revenue_section` (lines 342–409). -/
def parse_revenue_section (g : List (List Cell)) (cfg : Config) : Except PErr Table := do
  let headerRow : ℤ :=
    match find_header_row g (["period", "month", "week"] ++ cfg.branches) 0 20 with
    | some h => (h : ℤ)
    | none => cfg.revenue_header_row.getD 0
  let b ← detect_data_boundaries g headerRow 4
  let se := applyConfigOverride b cfg.revenue_start_row cfg.revenue_end_row
  parseSectionSteps g cfg.branches headerRow se.1 se.2

/-- The costs parser `parse_costs_section` (lines 411–464). -/
def parse_costs_section (g : List (List Cell)) (cfg : Config) : Except PErr Table := do
  let headerRow : ℤ :=
    match find_header_row g (["period", "month", "week", "cost", "expense"] ++ cfg.branches) 0 20 with
    | some h => (h : ℤ)
    | none => cfg.costs_header_row.getD 0
  let b ← detect_data_boundaries g headerRow 4
  let se := applyConfigOverride b cfg.costs_start_row cfg.costs_end_row
  parseSectionSteps g cfg.branches headerRow se.1 se.2

/-- The hours parser `parse_hours_section` (lines 466–519): requires explicit configured
start/end rows, otherwise the section is skipped; no boundary auto-detection
and no span check on the configured range. -/
def parse_hours_section (g : List (List Cell)) (cfg : Config) :
    Except PErr (Option Table) :=
  match cfg.hours_start_row, cfg.hours_end_row with
  | some cs, some ce => do
      let headerRow : ℤ :=
        match find_header_row g (["period", "month", "week", "hour", "hours"] ++ cfg.branches)
            (cs - 5).toNat 20 with
        | some h => (h : ℤ)
        | none => cfg.hours_header_row.getD (cs - 1)
      let t ← parseSectionSteps g cfg.branches headerRow cs ce
      Except.ok (some t)
  | _, _ => Except.ok none

/-! ## Validator & Reporter (`validate_dataframe`, lines 521–568) -/

/-- A validation warning; each constructor stands for one of the format
strings of `validate_dataframe`. -/
inductive Warn : Type
  | emptySection (sec : String)
  | missingBranches (sec : String) (bs : List String)
  | highMissing (sec branch : String) (pct : ℚ)
  deriving DecidableEq, Repr

/-- A parse-log entry recorded during validation: the opening `Validating`
line, the echo every `add_warning` writes to the log, and the
informational missing-data line of the `>25%` branch. -/
inductive LogE : Type
  | validating (sec : String)
  | warnEcho (w : Warn)
  | missingData (sec branch : String) (pct : ℚ)
  deriving DecidableEq, Repr

/-- pandas `df is None or df.empty`. -/
def tableEmptyB (t : Table) : Bool := t.rows.isEmpty || t.names.isEmpty

/-- The ratio `nan_pct = (nan_count / total_count) * 100 if total_count > 0 else 0`
for a branch column (first column with that label). -/
def missingPct (t : Table) (b : String) : ℚ :=
  match t.names.findIdx? (fun c => c == Cell.str b) with
  | none => 0
  | some i =>
    if t.rows.length = 0 then 0
    else mkRat (100 * ((t.rows.map (fun r => r.getD i Cell.na)).countP
        (fun c => c == Cell.na) : ℤ)) t.rows.length

/-- The per-branch completeness check of `validate_dataframe`: `>50%` missing
adds a warning (echoed to the log), `>25%` only a log entry. -/
def valStep (t : Table) (sec : String) :
    List Warn × List LogE → String → List Warn × List LogE :=
  fun acc b =>
    if t.names.contains (Cell.str b) then
      if 50 < missingPct t b then
        (acc.1 ++ [Warn.highMissing sec b (missingPct t b)],
         acc.2 ++ [LogE.warnEcho (Warn.highMissing sec b (missingPct t b))])
      else if 25 < missingPct t b then
        (acc.1, acc.2 ++ [LogE.missingData sec b (missingPct t b)])
      else acc
    else acc

/-- The validator `validate_dataframe` (lines 521–568): an empty table warns and stops;
otherwise one warning lists all missing branches, and each present branch is
checked for completeness.  Returns (warnings, log entries, is_valid). -/
def validate_dataframe (t : Table) (sec : String) (branches : List String) :
    List Warn × List LogE × Bool :=
  if tableEmptyB t then
    ([Warn.emptySection sec],
     [LogE.validating sec, LogE.warnEcho (Warn.emptySection sec)], false)
  else
    let missing := branches.filter (fun b => !(t.names.contains (Cell.str b)))
    let w1 : List Warn := if missing.isEmpty then [] else [Warn.missingBranches sec missing]
    let l1 : List LogE :=
      if missing.isEmpty then [] else [LogE.warnEcho (Warn.missingBranches sec missing)]
    let wl := branches.foldl (valStep t sec) ([], [])
    (w1 ++ wl.1, [LogE.validating sec] ++ l1 ++ wl.2, missing.isEmpty)

/-! ## Core entry point (`load_excel_data`, lines 606–651) -/

/-- The bundle returned to the caller (the rendered report is a pure function
of `warnings` and the log and is not separately modelled). -/
structure Bundle : Type where
  revenue : Table
  costs : Table
  hours : Option Table
  warnings : List Warn
  deriving DecidableEq, Repr

/-- Everything `load_excel_data` does after the single `pd.read_excel` call:
parse the three sections from the one raw grid, validate, and bundle. -/
def loadFromGrid (g : List (List Cell)) (cfg : Config) : Except PErr Bundle := do
  let revenue ← parse_revenue_section g cfg
  let costs ← parse_costs_section g cfg
  let hours ← parse_hours_section g cfg
  let w3 := match hours with
    | some t => (validate_dataframe t "Hours" cfg.branches).1
    | none => []
  Except.ok { revenue := revenue, costs := costs, hours := hours,
              warnings := (validate_dataframe revenue "Revenue" cfg.branches).1 ++
                (validate_dataframe costs "Costs" cfg.branches).1 ++ w3 }

/-- The entry point `load_excel_data` (lines 606–651): open the workbook (an I/O-category
failure propagates), read the single sheet selected by `revenue_sheet`
(default: first; an invalid sheet index is an I/O-category read failure),
and parse all three sections from that one grid. -/
def load_excel_data (workbook : Except PErr (List (List (List Cell)))) (cfg : Config) :
    Except PErr Bundle := do
  let sheets ← workbook
  match sheets.get? (cfg.revenue_sheet.getD 0) with
  | some g => loadFromGrid g cfg
  | none => Except.error PErr.ioError

/-- A configuration with no keys set (all defaults). -/
def emptyConfig : Config := {}

/-- C4 (code-bug exhibit): the claim says a call to the core entry point
either returns a complete bundle or fails with an I/O-category error, with
everything else degrading to warnings or missing values.  The code violates
this on a workbook whose (successfully read) first sheet has no rows and a
configuration with no keys set: header auto-detection fails, the fallback
header row 0 precedes the data start, and `df_raw.iloc[0]` on the empty grid
raises `IndexError` — a non-I/O error reaching the caller. -/
theorem claim_C4_failing_eval :
    load_excel_data (Except.ok [[]]) emptyConfig = Except.error PErr.indexError ∧
    PErr.indexError ≠ PErr.ioError := by decide

/-- Header row of the two-sheet workbook used against C9. -/
def c9Header : List Cell :=
  [Cell.str "Period", Cell.str "Cost", Cell.str "B", Cell.str "C", Cell.str "D"]

/-- Sheet 0 of the C9 workbook. -/
def c9GridA : List (List Cell) :=
  [c9Header,
   [Cell.str "Jan", Cell.int 5, Cell.int 6, Cell.int 7, Cell.int 8],
   [Cell.str "Feb", Cell.int 9, Cell.int 10, Cell.int 11, Cell.int 12]]

/-- Sheet 1 of the C9 workbook, same shape as sheet 0 with different values. -/
def c9GridB : List (List Cell) :=
  [c9Header,
   [Cell.str "Jan", Cell.int 105, Cell.int 106, Cell.int 107, Cell.int 108],
   [Cell.str "Feb", Cell.int 109, Cell.int 110, Cell.int 111, Cell.int 112]]

/-- A configuration that selects sheet 1 for the costs section. -/
def c9Cfg : Config := { costs_sheet := some 1 }

/-- C9 counterexample: with `costs_sheet = 1`, replacing sheet 1 of the
workbook by a different grid does not change the returned bundle at all,
although the costs parses of the two grids differ — so the costs section is
not read from the sheet selected by `costs_sheet` (the single
`pd.read_excel` call uses `revenue_sheet`, default 0, for every section). -/
theorem claim_C9_counterexample :
    load_excel_data (Except.ok [c9GridA, c9GridB]) c9Cfg =
      load_excel_data (Except.ok [c9GridA, c9GridA]) c9Cfg ∧
    parse_costs_section c9GridB c9Cfg ≠ parse_costs_section c9GridA c9Cfg := by decide

/-- C9 (amended): the workbook is read once, from the sheet selected by the
`revenue_sheet` key (defaulting to the first sheet when the key is absent),
and that single grid is used for the revenue, costs and hours parses alike;
the `costs_sheet` and `hours_sheet` keys have no effect.  Formally: the
result of the entry point depends on the workbook only through the sheet
selected by `revenue_sheet`. -/
theorem claim_C9_amended (wb1 wb2 : List (List (List Cell))) (cfg : Config)
    (h : wb1.get? (cfg.revenue_sheet.getD 0) = wb2.get? (cfg.revenue_sheet.getD 0)) :
    load_excel_data (Except.ok wb1) cfg = load_excel_data (Except.ok wb2) cfg := by
  have e1 : load_excel_data (Except.ok wb1) cfg =
      (match wb1.get? (cfg.revenue_sheet.getD 0) with
       | some g => loadFromGrid g cfg
       | none => Except.error PErr.ioError) := rfl
  have e2 : load_excel_data (Except.ok wb2) cfg =
      (match wb2.get? (cfg.revenue_sheet.getD 0) with
       | some g => loadFromGrid g cfg
       | none => Except.error PErr.ioError) := rfl
  rw [e1, e2, h]

/-- Witness for C9 (amended): dropping sheet 1 entirely does not change the
result, since `revenue_sheet` is absent and sheet 0 is identical. -/
theorem claim_C9_witness :
    [c9GridA, c9GridB].get? (c9Cfg.revenue_sheet.getD 0) =
      [c9GridA].get? (c9Cfg.revenue_sheet.getD 0) ∧
    load_excel_data (Except.ok [c9GridA, c9GridB]) c9Cfg =
      load_excel_data (Except.ok [c9GridA]) c9Cfg :=
  ⟨by decide, claim_C9_amended [c9GridA, c9GridB] [c9GridA] c9Cfg (by decide)⟩

/-- Whether a warning names the given branch. -/
def warnNames : Warn → String → Bool
  | Warn.missingBranches _ bs, b => bs.contains b
  | Warn.highMissing _ b' _, b => b' == b
  | Warn.emptySection _, _ => false

/-- Whether a warning is the high-missing-data warning for the given branch. -/
def isHighMissingFor : Warn → String → Bool
  | Warn.highMissing _ b' _, b => b' == b
  | _, _ => false

/-- Whether a log entry is the informational missing-data line for the branch. -/
def isMissingLogFor : LogE → String → Bool
  | LogE.missingData _ b' _, b => b' == b
  | _, _ => false

theorem valStep_fst (t : Table) (sec : String) (acc : List Warn × List LogE) (b : String) :
    (valStep t sec acc b).1 = acc.1 ∨
    ((valStep t sec acc b).1 = acc.1 ++ [Warn.highMissing sec b (missingPct t b)] ∧
      t.names.contains (Cell.str b) = true ∧ 50 < missingPct t b) := by
  unfold valStep
  by_cases h1 : t.names.contains (Cell.str b) = true
  · rw [if_pos h1]
    by_cases h2 : 50 < missingPct t b
    · rw [if_pos h2]; exact Or.inr ⟨rfl, h1, h2⟩
    · rw [if_neg h2]
      by_cases h3 : 25 < missingPct t b
      · rw [if_pos h3]; exact Or.inl rfl
      · rw [if_neg h3]; exact Or.inl rfl
  · rw [if_neg h1]; exact Or.inl rfl

theorem valStep_snd (t : Table) (sec : String) (acc : List Warn × List LogE) (b : String) :
    (valStep t sec acc b).2 = acc.2 ∨ ∃ e : LogE, (valStep t sec acc b).2 = acc.2 ++ [e] := by
  unfold valStep
  by_cases h1 : t.names.contains (Cell.str b) = true
  · rw [if_pos h1]
    by_cases h2 : 50 < missingPct t b
    · rw [if_pos h2]; exact Or.inr ⟨_, rfl⟩
    · rw [if_neg h2]
      by_cases h3 : 25 < missingPct t b
      · rw [if_pos h3]; exact Or.inr ⟨_, rfl⟩
      · rw [if_neg h3]; exact Or.inl rfl
  · rw [if_neg h1]; exact Or.inl rfl

theorem valFold_any_fst_mono (t : Table) (sec : String) (p : Warn → Bool) :
    ∀ (l : List String) (acc : List Warn × List LogE),
      acc.1.any p = true → ((l.foldl (valStep t sec) acc).1.any p) = true := by
  intro l
  induction l with
  | nil => intro acc h; exact h
  | cons x xs ih =>
    intro acc h
    apply ih
    rcases valStep_fst t sec acc x with h1 | ⟨h1, _, _⟩
    · rw [h1]; exact h
    · rw [h1, List.any_append, h]; rfl

theorem valFold_any_snd_mono (t : Table) (sec : String) (p : LogE → Bool) :
    ∀ (l : List String) (acc : List Warn × List LogE),
      acc.2.any p = true → ((l.foldl (valStep t sec) acc).2.any p) = true := by
  intro l
  induction l with
  | nil => intro acc h; exact h
  | cons x xs ih =>
    intro acc h
    apply ih
    rcases valStep_snd t sec acc x with h1 | ⟨e, h1⟩
    · rw [h1]; exact h
    · rw [h1, List.any_append, h]; rfl

theorem valFold_high (t : Table) (sec b : String)
    (hco : t.names.contains (Cell.str b) = true) (hpct : 50 < missingPct t b) :
    ∀ (l : List String) (acc : List Warn × List LogE), b ∈ l →
      ((l.foldl (valStep t sec) acc).1.any (fun w => isHighMissingFor w b)) = true := by
  intro l
  induction l with
  | nil => intro acc h; simp at h
  | cons x xs ih =>
    intro acc hmem
    rw [List.foldl_cons]
    rcases List.mem_cons.mp hmem with h1 | h2
    · subst h1
      apply valFold_any_fst_mono
      have hstep : (valStep t sec acc b).1 =
          acc.1 ++ [Warn.highMissing sec b (missingPct t b)] := by
        unfold valStep
        rw [if_pos hco, if_pos hpct]
      rw [hstep, List.any_append]
      have : isHighMissingFor (Warn.highMissing sec b (missingPct t b)) b = true := by
        simp [isHighMissingFor]
      simp [this]
    · exact ih (valStep t sec acc x) h2

theorem valFold_midlog (t : Table) (sec b : String)
    (hco : t.names.contains (Cell.str b) = true)
    (h25 : 25 < missingPct t b) (h50 : missingPct t b ≤ 50) :
    ∀ (l : List String) (acc : List Warn × List LogE), b ∈ l →
      ((l.foldl (valStep t sec) acc).2.any (fun e => isMissingLogFor e b)) = true := by
  intro l
  induction l with
  | nil => intro acc h; simp at h
  | cons x xs ih =>
    intro acc hmem
    rw [List.foldl_cons]
    rcases List.mem_cons.mp hmem with h1 | h2
    · subst h1
      apply valFold_any_snd_mono
      have hstep : (valStep t sec acc b).2 =
          acc.2 ++ [LogE.missingData sec b (missingPct t b)] := by
        unfold valStep
        rw [if_pos hco, if_neg (not_lt.mpr h50), if_pos h25]
      rw [hstep, List.any_append]
      have : isMissingLogFor (LogE.missingData sec b (missingPct t b)) b = true := by
        simp [isMissingLogFor]
      simp [this]
    · exact ih (valStep t sec acc x) h2

theorem valFold_no_warn_for (t : Table) (sec b : String) (hb : ¬ (50 < missingPct t b)) :
    ∀ (l : List String) (acc : List Warn × List LogE),
      ((l.foldl (valStep t sec) acc).1.any (fun w => warnNames w b)) =
        (acc.1.any (fun w => warnNames w b)) := by
  intro l
  induction l with
  | nil => intro acc; rfl
  | cons x xs ih =>
    intro acc
    rw [List.foldl_cons, ih]
    rcases valStep_fst t sec acc x with h1 | ⟨h1, hcx, hpx⟩
    · rw [h1]
    · rw [h1, List.any_append]
      have hxb : x ≠ b := by
        intro he
        subst he
        exact hb hpx
      have : warnNames (Warn.highMissing sec x (missingPct t x)) b = false := by
        simp [warnNames]
        exact hxb
      simp [this]

theorem validate_dataframe_eq (t : Table) (sec : String) (branches : List String)
    (h : tableEmptyB t = false) :
    validate_dataframe t sec branches =
      ((if (branches.filter (fun b => !(t.names.contains (Cell.str b)))).isEmpty then []
        else [Warn.missingBranches sec
          (branches.filter (fun b => !(t.names.contains (Cell.str b))))]) ++
        (branches.foldl (valStep t sec) ([], [])).1,
       [LogE.validating sec] ++
        (if (branches.filter (fun b => !(t.names.contains (Cell.str b)))).isEmpty then []
         else [LogE.warnEcho (Warn.missingBranches sec
           (branches.filter (fun b => !(t.names.contains (Cell.str b)))))]) ++
        (branches.foldl (valStep t sec) ([], [])).2,
       (branches.filter (fun b => !(t.names.contains (Cell.str b)))).isEmpty) := by
  unfold validate_dataframe
  rw [if_neg (by simp [h])]

/-- C8: For every parsed section and configured canonical branch list,
validation produces at least one Warning naming a branch whenever that branch
is absent as a column; for a present branch column, a missing-value ratio
above 50% produces a Warning, while a ratio above 25% (but not above 50%)
produces only a log entry and no Warning; an empty section produces a Warning
and validation stops for that section. -/
theorem claim_C8_validation (t : Table) (sec : String) (branches : List String) :
    (tableEmptyB t = true →
      validate_dataframe t sec branches =
        ([Warn.emptySection sec],
         [LogE.validating sec, LogE.warnEcho (Warn.emptySection sec)], false)) ∧
    (tableEmptyB t = false →
      (∀ b ∈ branches, t.names.contains (Cell.str b) = false →
        ((validate_dataframe t sec branches).1.any (fun w => warnNames w b)) = true) ∧
      (∀ b ∈ branches, t.names.contains (Cell.str b) = true →
        ((50 < missingPct t b →
            ((validate_dataframe t sec branches).1.any (fun w => isHighMissingFor w b)) = true) ∧
         (25 < missingPct t b → missingPct t b ≤ 50 →
            ((validate_dataframe t sec branches).1.any (fun w => warnNames w b)) = false ∧
            ((validate_dataframe t sec branches).2.1.any (fun e => isMissingLogFor e b)) = true)))) := by
  constructor
  · intro hempty
    unfold validate_dataframe
    rw [if_pos hempty]
  · intro hnempty
    constructor
    · intro b hb hcon
      have hbm : b ∈ branches.filter (fun b => !(t.names.contains (Cell.str b))) :=
        List.mem_filter.mpr ⟨hb, by rw [hcon]; rfl⟩
      have hMne : ¬ ((branches.filter (fun b => !(t.names.contains (Cell.str b)))).isEmpty = true) := by
        rw [List.isEmpty_iff_eq_nil]
        exact List.ne_nil_of_mem hbm
      rw [validate_dataframe_eq t sec branches hnempty]
      have hwn : warnNames (Warn.missingBranches sec
          (branches.filter (fun b => !(t.names.contains (Cell.str b))))) b = true := by
        simp only [warnNames]
        simpa using hbm
      rw [if_neg hMne, List.any_append, List.any_cons, List.any_nil, hwn]
      rfl
    · intro b hb hcon
      constructor
      · intro hpct
        rw [validate_dataframe_eq t sec branches hnempty]
        simp only [List.any_append]
        have := valFold_high t sec b hcon hpct branches ([], []) hb
        simp [this]
      · intro h25 h50
        rw [validate_dataframe_eq t sec branches hnempty]
        constructor
        · simp only [List.any_append]
          have hfold := valFold_no_warn_for t sec b (not_lt.mpr h50) branches ([], [])
          have hfold' : ((branches.foldl (valStep t sec) ([], [])).1.any
              (fun w => warnNames w b)) = false := by
            rw [hfold]; rfl
          have hw1 : ∀ bs, b ∉ bs →
              warnNames (Warn.missingBranches sec bs) b = false := by
            intro bs hnb
            simp only [warnNames]
            simpa using hnb
          by_cases hM : (branches.filter (fun b => !(t.names.contains (Cell.str b)))).isEmpty = true
          · rw [if_pos hM, List.any_nil, hfold']
            rfl
          · rw [if_neg hM]
            have hnb : b ∉ branches.filter (fun b => !(t.names.contains (Cell.str b))) := by
              intro hmem
              have := (List.mem_filter.mp hmem).2
              rw [hcon] at this
              simp at this
            rw [List.any_cons, List.any_nil, hw1 _ hnb, hfold']
            rfl
        · simp only [List.any_append]
          have := valFold_midlog t sec b hcon h25 h50 branches ([], []) hb
          simp [this]

/-- The concrete table used as the C8 witness: branch North has 75% missing
values, branch Mid exactly 50%, and branch South is absent. -/
def c8Table : Table :=
  { names := [Cell.str "Period", Cell.str "North", Cell.str "Mid"],
    rows := [[Cell.str "Jan", Cell.na, Cell.na],
             [Cell.str "Feb", Cell.na, Cell.num 1],
             [Cell.str "Mar", Cell.na, Cell.na],
             [Cell.str "Apr", Cell.num 2, Cell.num 3]] }

/-- Witness for C8 on `c8Table` with branches North, South, Mid. -/
theorem claim_C8_witness :
    tableEmptyB c8Table = false ∧
    ((validate_dataframe c8Table "Revenue" ["North", "South", "Mid"]).1.any
      (fun w => warnNames w "South")) = true ∧
    ((validate_dataframe c8Table "Revenue" ["North", "South", "Mid"]).1.any
      (fun w => isHighMissingFor w "North")) = true ∧
    ((validate_dataframe c8Table "Revenue" ["North", "South", "Mid"]).1.any
      (fun w => warnNames w "Mid")) = false ∧
    ((validate_dataframe c8Table "Revenue" ["North", "South", "Mid"]).2.1.any
      (fun e => isMissingLogFor e "Mid")) = true :=
  ⟨by decide,
   ((claim_C8_validation c8Table "Revenue" ["North", "South", "Mid"]).2 (by decide)).1
     "South" (by decide) (by decide),
   (((claim_C8_validation c8Table "Revenue" ["North", "South", "Mid"]).2 (by decide)).2
     "North" (by decide) (by decide)).1 (by decide),
   ((((claim_C8_validation c8Table "Revenue" ["North", "South", "Mid"]).2 (by decide)).2
     "Mid" (by decide) (by decide)).2 (by decide) (by decide)).1,
   ((((claim_C8_validation c8Table "Revenue" ["North", "South", "Mid"]).2 (by decide)).2
     "Mid" (by decide) (by decide)).2 (by decide) (by decide)).2⟩
